import Mathlib

/-!
Verification of the PII normalization and hashing routine of
`packages/destination-actions/src/destinations/facebook-conversions-api/fb-capi-user-data.ts`
(`normalize_user_data`, `hash_user_data`, `isHashedInformation`, `hash`).

Strings are modelled as Lean `String` (a list of Unicode characters).
JavaScript's `\s` regex class is modelled by `isJsWhitespace`, `\D` by the
complement of `isDigitChar`, and `String.prototype.toLowerCase` by `lowerChar`
(the Basic Latin fragment, which covers all inputs of interest here:
JS lowercases `A`-`Z` to `a`-`z` and leaves ASCII punctuation, digits and
lowercase letters unchanged).
-/

/-- The ECMAScript WhiteSpace and LineTerminator characters matched by the
regex class `\\s`: tab, line feed, vertical tab, form feed, carriage return,
space, no-break space, ogham space mark, the en-quad..hair-space range,
line separator, paragraph separator, narrow no-break space, medium
mathematical space, ideographic space and the byte-order mark. -/
def jsWhitespaceChars : List Char :=
  ['\t', '\n', '\u000b', '\u000c', '\r', ' ',
   '\u00a0', '\u1680',
   '\u2000', '\u2001', '\u2002', '\u2003', '\u2004', '\u2005',
   '\u2006', '\u2007', '\u2008', '\u2009', '\u200a',
   '\u2028', '\u2029', '\u202f', '\u205f', '\u3000', '\ufeff']

/-- Model of the JavaScript regex class `\\s`. -/
def isJsWhitespace (c : Char) : Bool := jsWhitespaceChars.contains c

/-- Model of the JavaScript regex class `[0-9]` (so `\\D` is its complement). -/
def isDigitChar (c : Char) : Bool :=
  ['0', '1', '2', '3', '4', '5', '6', '7', '8', '9'].contains c

/-- Model of the JavaScript regex class `[0-9abcdef]` with the `i` flag:
a hexadecimal digit, case-insensitive. -/
def isHexChar (c : Char) : Bool :=
  (['0', '1', '2', '3', '4', '5', '6', '7', '8', '9']
    ++ ['a', 'b', 'c', 'd', 'e', 'f']
    ++ ['A', 'B', 'C', 'D', 'E', 'F']).contains c

/-- The case mapping of the Basic Latin block: `A`-`Z` to `a`-`z`. -/
def lowerPairs : List (Char × Char) :=
  [('A', 'a'), ('B', 'b'), ('C', 'c'), ('D', 'd'), ('E', 'e'), ('F', 'f'),
   ('G', 'g'), ('H', 'h'), ('I', 'i'), ('J', 'j'), ('K', 'k'), ('L', 'l'),
   ('M', 'm'), ('N', 'n'), ('O', 'o'), ('P', 'p'), ('Q', 'q'), ('R', 'r'),
   ('S', 's'), ('T', 't'), ('U', 'u'), ('V', 'v'), ('W', 'w'), ('X', 'x'),
   ('Y', 'y'), ('Z', 'z')]

/-- Model of `String.prototype.toLowerCase` on one character, restricted to the
Basic Latin block: `A`-`Z` map to `a`-`z`, everything else is unchanged. -/
def lowerChar (c : Char) : Char :=
  match lowerPairs.find? (fun p => p.1 == c) with
  | some p => p.2
  | none => c

/-- An ASCII capital letter `A`-`Z` (what `lowerChar` rewrites). -/
def isAsciiUpper (c : Char) : Bool := lowerPairs.any (fun p => p.1 == c)


/-- Model of `s.replace(/\s/g, '')`: remove every whitespace character
anywhere in the string. -/
def stripWs (s : String) : String :=
  String.mk (s.data.filter fun c => !(isJsWhitespace c))

/-- Model of `s.toLowerCase()` (Basic Latin fragment). -/
def strLower (s : String) : String :=
  String.mk (s.data.map lowerChar)

/-- Model of `s.replace(/\D/g, '')`: remove every non-digit character. -/
def stripNonDigits (s : String) : String :=
  String.mk (s.data.filter isDigitChar)

/-- True when the character list contains, starting at some position, a run of
64 consecutive hexadecimal characters: the unanchored search performed by the
regex `/[0-9abcdef]{64}/gi`. -/
def hasHexRun64 : List Char → Bool
  | [] => false
  | c :: rest =>
    (decide (64 ≤ (c :: rest).length) && ((c :: rest).take 64).all isHexChar)
      || hasHexRun64 rest

/-- Source: `const isHashedInformation = (information: string): boolean =>`
`new RegExp(/[0-9abcdef]\x7b64\x7d/gi).test(information)`. -/
def isHashedInformation (information : String) : Bool :=
  hasHexRun64 information.data

/-! ## SHA-256 (the digest used by `processHashingV2(value, 'sha256', 'hex')`)

32-bit words are `Nat` values kept below `2 ^ 32` by explicit `% 4294967296`.
-/

/-- Truncate to a 32-bit word. -/
def m32 (n : Nat) : Nat := n % 4294967296

/-- Rotate a 32-bit word right by `n` bits. -/
def rotr (n x : Nat) : Nat := m32 ((x >>> n) ||| (x <<< (32 - n)))

/-- Bitwise complement of a 32-bit word. -/
def not32 (x : Nat) : Nat := 4294967295 ^^^ x

/-- The SHA-256 round constants. -/
def sha256K : List Nat :=
  [1116352408, 1899447441, 3049323471, 3921009573, 961987163,
   1508970993, 2453635748, 2870763221, 3624381080, 310598401,
   607225278, 1426881987, 1925078388, 2162078206, 2614888103,
   3248222580, 3835390401, 4022224774, 264347078, 604807628,
   770255983, 1249150122, 1555081692, 1996064986, 2554220882,
   2821834349, 2952996808, 3210313671, 3336571891, 3584528711,
   113926993, 338241895, 666307205, 773529912, 1294757372,
   1396182291, 1695183700, 1986661051, 2177026350, 2456956037,
   2730485921, 2820302411, 3259730800, 3345764771, 3516065817,
   3600352804, 4094571909, 275423344, 430227734, 506948616,
   659060556, 883997877, 958139571, 1322822218, 1537002063,
   1747873779, 1955562222, 2024104815, 2227730452, 2361852424,
   2428436474, 2756734187, 3204031479, 3329325298]

/-- The SHA-256 initial hash value. -/
def sha256H0 : List Nat :=
  [1779033703, 3144134277, 1013904242, 2773480762,
   1359893119, 2600822924, 528734635, 1541459225]

/-- One step of the message-schedule extension; `rev` holds the words produced
so far, newest first. -/
def schedStep (rev : List Nat) : List Nat :=
  let w2 := rev.getD 1 0
  let w7 := rev.getD 6 0
  let w15 := rev.getD 14 0
  let w16 := rev.getD 15 0
  let s0 := (rotr 7 w15) ^^^ (rotr 18 w15) ^^^ (w15 >>> 3)
  let s1 := (rotr 17 w2) ^^^ (rotr 19 w2) ^^^ (w2 >>> 10)
  m32 (s1 + w7 + s0 + w16) :: rev

/-- Extend a 16-word block to the 64-word message schedule. -/
def msgSchedule (block : List Nat) : List Nat :=
  (Nat.repeat schedStep 48 block.reverse).reverse

/-- One round of the SHA-256 compression function. -/
def roundStep (st : Nat × Nat × Nat × Nat × Nat × Nat × Nat × Nat)
    (kw : Nat × Nat) : Nat × Nat × Nat × Nat × Nat × Nat × Nat × Nat :=
  let (a, b, c, d, e, f, g, h) := st
  let bS1 := (rotr 6 e) ^^^ (rotr 11 e) ^^^ (rotr 25 e)
  let ch := (e &&& f) ^^^ ((not32 e) &&& g)
  let t1 := m32 (h + bS1 + ch + kw.1 + kw.2)
  let bS0 := (rotr 2 a) ^^^ (rotr 13 a) ^^^ (rotr 22 a)
  let maj := (a &&& b) ^^^ (a &&& c) ^^^ (b &&& c)
  let t2 := m32 (bS0 + maj)
  (m32 (t1 + t2), a, b, c, m32 (d + t1), e, f, g)

/-- Process one 512-bit block, updating the eight-word state. -/
def sha256Compress (hs : List Nat) (block : List Nat) : List Nat :=
  let w := msgSchedule block
  let st0 := (hs.getD 0 0, hs.getD 1 0, hs.getD 2 0, hs.getD 3 0,
              hs.getD 4 0, hs.getD 5 0, hs.getD 6 0, hs.getD 7 0)
  let (a, b, c, d, e, f, g, h) := (sha256K.zip w).foldl roundStep st0
  [m32 (hs.getD 0 0 + a), m32 (hs.getD 1 0 + b), m32 (hs.getD 2 0 + c),
   m32 (hs.getD 3 0 + d), m32 (hs.getD 4 0 + e), m32 (hs.getD 5 0 + f),
   m32 (hs.getD 6 0 + g), m32 (hs.getD 7 0 + h)]

/-- Big-endian bytes of a `Nat`, fixed width `k` bytes. -/
def beBytes (k n : Nat) : List Nat :=
  (List.range k).map fun i => (n >>> (8 * (k - 1 - i))) % 256

/-- SHA-256 padding: append `0x80`, zeros to 56 mod 64, then the bit length
as eight big-endian bytes. -/
def sha256Pad (msg : List Nat) : List Nat :=
  let padLen := (119 - msg.length % 64) % 64
  msg ++ [0x80] ++ List.replicate padLen 0 ++ beBytes 8 (8 * msg.length)

/-- Pack a 64-byte block into sixteen big-endian 32-bit words. -/
def wordsOf (b : List Nat) : List Nat :=
  (List.range 16).map fun i =>
    (b.getD (4 * i) 0) <<< 24 ||| (b.getD (4 * i + 1) 0) <<< 16 |||
    (b.getD (4 * i + 2) 0) <<< 8 ||| b.getD (4 * i + 3) 0

/-- Split a padded message into 16-word blocks (`fuel` bounds the recursion). -/
def toBlocksGo : Nat → List Nat → List (List Nat)
  | 0, _ => []
  | _ + 1, [] => []
  | fuel + 1, l => wordsOf (l.take 64) :: toBlocksGo fuel (l.drop 64)

/-- Split a padded message into 16-word blocks. -/
def toBlocks (l : List Nat) : List (List Nat) := toBlocksGo l.length l

/-- UTF-8 encoding of one code point. -/
def utf8EncodeCp (n : Nat) : List Nat :=
  if n < 0x80 then [n]
  else if n < 0x800 then [0xc0 + n / 64, 0x80 + n % 64]
  else if n < 0x10000 then
    [0xe0 + n / 4096, 0x80 + (n / 64) % 64, 0x80 + n % 64]
  else
    [0xf0 + n / 262144, 0x80 + (n / 4096) % 64, 0x80 + (n / 64) % 64,
     0x80 + n % 64]

/-- UTF-8 bytes of a string. -/
def utf8Bytes (s : String) : List Nat :=
  s.data.foldr (fun c acc => utf8EncodeCp c.toNat ++ acc) []

/-- One lowercase hexadecimal digit. -/
def hexDigitChar (n : Nat) : Char :=
  match n with
  | 0 => '0' | 1 => '1' | 2 => '2' | 3 => '3' | 4 => '4'
  | 5 => '5' | 6 => '6' | 7 => '7' | 8 => '8' | 9 => '9'
  | 10 => 'a' | 11 => 'b' | 12 => 'c' | 13 => 'd' | 14 => 'e'
  | _ => 'f'

/-- Eight lowercase hex digits of a 32-bit word, most significant first. -/
def wordToHex (w : Nat) : List Char :=
  (List.range 8).map fun i => hexDigitChar ((w >>> (28 - 4 * i)) % 16)

/-- SHA-256 digest of a string's UTF-8 bytes, as 64 lowercase hex characters. -/
def sha256Hex (s : String) : String :=
  let digest := (toBlocks (sha256Pad (utf8Bytes s))).foldl sha256Compress sha256H0
  String.mk (digest.foldr (fun w acc => wordToHex w ++ acc) [])

/-- Modelled from the spec: `processHashingV2` (imported from
`../../lib/hashing-utils`, which is not part of the reviewed sources) computes
the deterministic SHA-256 digest encoded as lowercase hexadecimal, and a value
already matching the 64-hex-character pre-hashed pattern "must not be re-hashed"
and is passed through unchanged. -/
def processHashingV2 (value : String) : String :=
  if isHashedInformation value then value else sha256Hex value

/-! ## Data model -/

/-- A value that is either a single string or an array of strings
(the TypeScript `string | string[]` that `externalId` and `hash` handle). -/
inductive SValue where
  | str (s : String)
  | arr (l : List String)
deriving DecidableEq, Repr

/-- The `user_data` record: identity strings, address fragment, and
pass-through identifiers, each optional. `leadID` and `fbLoginID` are
typed `integer` in the field schema. -/
structure UserDataObj where
  externalId : Option SValue := none
  email : Option String := none
  phone : Option String := none
  gender : Option String := none
  dateOfBirth : Option String := none
  lastName : Option String := none
  firstName : Option String := none
  city : Option String := none
  state : Option String := none
  zip : Option String := none
  country : Option String := none
  client_ip_address : Option String := none
  client_user_agent : Option String := none
  fbc : Option String := none
  fbp : Option String := none
  subscriptionID : Option String := none
  leadID : Option Int := none
  anonId : Option String := none
  madId : Option String := none
  fbLoginID : Option Int := none
  partner_id : Option String := none
  partner_name : Option String := none
deriving DecidableEq, Repr

/-- Source: `type UserData = Pick<Payload, 'user_data'>` — the payload slice
holding the user data object. -/
structure UserData where
  user_data : UserDataObj
deriving DecidableEq, Repr

/-- Modelled from the spec: `US_STATE_CODES` (imported from `./constants`,
which is not part of the reviewed sources) is a read-only table whose keys are
full lowercase region names mapped to canonical two-letter codes. -/
def US_STATE_CODES : List (String × String) :=
  [("alabama", "al"), ("alaska", "ak"), ("arizona", "az"), ("arkansas", "ar"),
   ("california", "ca"), ("colorado", "co"), ("connecticut", "ct"),
   ("delaware", "de"), ("florida", "fl"), ("georgia", "ga"), ("hawaii", "hi"),
   ("idaho", "id"), ("illinois", "il"), ("indiana", "in"), ("iowa", "ia"),
   ("kansas", "ks"), ("kentucky", "ky"), ("louisiana", "la"), ("maine", "me"),
   ("maryland", "md"), ("massachusetts", "ma"), ("michigan", "mi"),
   ("minnesota", "mn"), ("mississippi", "ms"), ("missouri", "mo"),
   ("montana", "mt"), ("nebraska", "ne"), ("nevada", "nv"),
   ("new hampshire", "nh"), ("new jersey", "nj"), ("new mexico", "nm"),
   ("new york", "ny"), ("north carolina", "nc"), ("north dakota", "nd"),
   ("ohio", "oh"), ("oklahoma", "ok"), ("oregon", "or"),
   ("pennsylvania", "pa"), ("rhode island", "ri"), ("south carolina", "sc"),
   ("south dakota", "sd"), ("tennessee", "tn"), ("texas", "tx"),
   ("utah", "ut"), ("vermont", "vt"), ("virginia", "va"),
   ("washington", "wa"), ("west virginia", "wv"), ("wisconsin", "wi"),
   ("wyoming", "wy")]

/-- Modelled from the spec: `COUNTRY_CODES` (imported from `./constants`,
which is not part of the reviewed sources) is a read-only table whose keys are
full lowercase country names mapped to canonical two-letter codes. -/
def COUNTRY_CODES : List (String × String) :=
  [("united states", "us"), ("united kingdom", "gb"), ("canada", "ca"),
   ("australia", "au"), ("germany", "de"), ("france", "fr"), ("india", "in"),
   ("brazil", "br"), ("japan", "jp"), ("mexico", "mx"), ("spain", "es"),
   ("italy", "it"), ("netherlands", "nl"), ("china", "cn"),
   ("south korea", "kr"), ("ireland", "ie"), ("new zealand", "nz")]

/-- Combined `Map.has`/`Map.get`: look a key up in an association table. -/
def tableLookup : List (String × String) → String → Option String
  | [], _ => none
  | (k, v) :: rest, key => if key = k then some v else tableLookup rest key

/-- Model of lodash `isEmpty` on the `externalId` value: `undefined`, the
empty string and the empty array are empty. -/
def lodashIsEmpty : Option SValue → Bool
  | none => true
  | some (SValue.str s) => decide (s.length = 0)
  | some (SValue.arr l) => decide (l.length = 0)

/-! ## Normalizer (`normalize_user_data`) -/

/-- The `replace(/\s/g, '').toLowerCase()` branch guarded by JS truthiness,
shared by `email`, `lastName`, `firstName`, `city` and `zip`. -/
def normWsLower (o : Option String) : Option String :=
  match o with
  | none => none
  | some s => if s = "" then some s else some (strLower (stripWs s))

/-- Rule for `phone`: when truthy and not detected as pre-hashed, strip
every non-digit character; otherwise leave the field as it is. -/
def normPhone (o : Option String) : Option String :=
  match o with
  | none => none
  | some s =>
    if s = "" then some s
    else if isHashedInformation s then some s
    else some (stripNonDigits s)

/-- Rule for `gender`: strip whitespace and lowercase, then map
`male`/`female` to `m`/`f` via the `switch`; any other value stays as
computed. -/
def normGender (o : Option String) : Option String :=
  match o with
  | none => none
  | some s =>
    if s = "" then some s
    else
      let g := strLower (stripWs s)
      if g = "male" then some "m"
      else if g = "female" then some "f"
      else some g

/-- Rule for `state` and `country`: strip whitespace and lowercase, then
replace by the table's canonical code on a hit. -/
def normViaTable (table : List (String × String)) (o : Option String) :
    Option String :=
  match o with
  | none => none
  | some s =>
    if s = "" then some s
    else
      let t := strLower (stripWs s)
      match tableLookup table t with
      | some code => some code
      | none => some t

/-- Rule for `externalId`: unless lodash-empty, coerce a bare string to a
one-element array, then strip whitespace from and lowercase every element. -/
def normExternalId (o : Option SValue) : Option SValue :=
  if lodashIsEmpty o then o
  else
    match o with
    | some (SValue.str s) => some (SValue.arr [strLower (stripWs s)])
    | some (SValue.arr l) => some (SValue.arr (l.map fun el => strLower (stripWs el)))
    | none => none

/-- Source: `export const normalize_user_data = (payload: UserData)`.
Field-by-field canonicalization of the user data object, per Facebook's
hashing specification. `dateOfBirth` and the pass-through fields are not
touched. -/
def normalize_user_data (payload : UserData) : UserData :=
  { user_data :=
    { payload.user_data with
      email := normWsLower payload.user_data.email
      phone := normPhone payload.user_data.phone
      gender := normGender payload.user_data.gender
      lastName := normWsLower payload.user_data.lastName
      firstName := normWsLower payload.user_data.firstName
      city := normWsLower payload.user_data.city
      state := normViaTable US_STATE_CODES payload.user_data.state
      zip := normWsLower payload.user_data.zip
      country := normViaTable COUNTRY_CODES payload.user_data.country
      externalId := normExternalId payload.user_data.externalId } }

/-! ## Hasher (`hash_user_data`) -/

/-- Source: `const hash = (value: string | string[] | undefined)`.
An `undefined` or length-zero value yields `undefined`; a string is digested,
an array is digested element-wise. -/
def hash : Option SValue → Option SValue
  | none => none
  | some (SValue.str s) =>
    if s.length = 0 then none else some (SValue.str (processHashingV2 s))
  | some (SValue.arr l) =>
    if l.length = 0 then none else some (SValue.arr (l.map processHashingV2))

/-- The flat output record of `hash_user_data`, with the platform-dictated
key names. -/
structure HashedUserData where
  em : Option SValue
  ph : Option SValue
  ge : Option SValue
  db : Option SValue
  ln : Option SValue
  fn : Option SValue
  ct : Option SValue
  st : Option SValue
  zp : Option SValue
  country : Option SValue
  external_id : Option SValue
  client_ip_address : Option String
  client_user_agent : Option String
  fbc : Option String
  fbp : Option String
  subscription_id : Option String
  lead_id : Option Int
  anon_id : Option String
  madid : Option String
  fb_login_id : Option Int
  partner_id : Option String
  partner_name : Option String
deriving DecidableEq, Repr

/-- Source: `export const hash_user_data = (payload: UserData): Object`.
Normalize the payload in place, then digest the PII fields and copy the
pass-through fields under their output key names. -/
def hash_user_data (payload : UserData) : HashedUserData :=
  let q := (normalize_user_data payload).user_data
  { em := hash (q.email.map SValue.str)
    ph := hash (q.phone.map SValue.str)
    ge := hash (q.gender.map SValue.str)
    db := hash (q.dateOfBirth.map SValue.str)
    ln := hash (q.lastName.map SValue.str)
    fn := hash (q.firstName.map SValue.str)
    ct := hash (q.city.map SValue.str)
    st := hash (q.state.map SValue.str)
    zp := hash (q.zip.map SValue.str)
    country := hash (q.country.map SValue.str)
    external_id := hash q.externalId
    client_ip_address := q.client_ip_address
    client_user_agent := q.client_user_agent
    fbc := q.fbc
    fbp := q.fbp
    subscription_id := q.subscriptionID
    lead_id := q.leadID
    anon_id := q.anonId
    madid := q.madId
    fb_login_id := q.fbLoginID
    partner_id := q.partner_id
    partner_name := q.partner_name }

/-! ## Character-level lemmas -/

theorem lowerPairs_snd_fix :
    (lowerPairs.all fun p => (lowerPairs.find? (fun q => q.1 == p.2)).isNone) = true := by
  decide

theorem lowerPairs_snd_ws :
    (lowerPairs.all fun p => isJsWhitespace p.2 == isJsWhitespace p.1) = true := by
  decide

theorem lowerChar_eq_of_find (c : Char) (p : Char × Char)
    (h : lowerPairs.find? (fun q => q.1 == c) = some p) : lowerChar c = p.2 := by
  unfold lowerChar
  rw [h]

theorem lowerChar_eq_self (c : Char)
    (h : lowerPairs.find? (fun q => q.1 == c) = none) : lowerChar c = c := by
  unfold lowerChar
  rw [h]

theorem lowerChar_idem (c : Char) : lowerChar (lowerChar c) = lowerChar c := by
  rcases hf : lowerPairs.find? (fun q => q.1 == c) with _ | p
  · rw [lowerChar_eq_self c hf, lowerChar_eq_self c hf]
  · rw [lowerChar_eq_of_find c p hf]
    have hmem : p ∈ lowerPairs := List.mem_of_find?_eq_some hf
    have hfix := List.all_eq_true.mp lowerPairs_snd_fix p hmem
    rcases hg : lowerPairs.find? (fun q => q.1 == p.2) with _ | q
    · exact lowerChar_eq_self p.2 hg
    · rw [hg] at hfix
      simp at hfix

theorem isJsWhitespace_lowerChar (c : Char) :
    isJsWhitespace (lowerChar c) = isJsWhitespace c := by
  rcases hf : lowerPairs.find? (fun q => q.1 == c) with _ | p
  · rw [lowerChar_eq_self c hf]
  · rw [lowerChar_eq_of_find c p hf]
    have hmem : p ∈ lowerPairs := List.mem_of_find?_eq_some hf
    have hws := List.all_eq_true.mp lowerPairs_snd_ws p hmem
    have hc := List.find?_some hf
    simp only [beq_iff_eq] at hc hws
    rw [← hc]
    exact hws

theorem isAsciiUpper_lowerChar (c : Char) : isAsciiUpper (lowerChar c) = false := by
  rcases hf : lowerPairs.find? (fun q => q.1 == c) with _ | p
  · rw [lowerChar_eq_self c hf]
    unfold isAsciiUpper
    rw [List.any_eq_false]
    exact List.find?_eq_none.mp hf
  · rw [lowerChar_eq_of_find c p hf]
    have hmem : p ∈ lowerPairs := List.mem_of_find?_eq_some hf
    have hfix := List.all_eq_true.mp lowerPairs_snd_fix p hmem
    unfold isAsciiUpper
    rw [List.any_eq_false]
    rcases hg : lowerPairs.find? (fun q => q.1 == p.2) with _ | q
    · exact List.find?_eq_none.mp hg
    · rw [hg] at hfix
      simp at hfix

theorem digit_clean (c : Char) (h : isDigitChar c = true) :
    isAsciiUpper c = false ∧ isJsWhitespace c = false := by
  have hmem : c ∈ ['0', '1', '2', '3', '4', '5', '6', '7', '8', '9'] := by
    unfold isDigitChar List.contains at h
    exact List.elem_iff.mp h
  fin_cases hmem <;> exact ⟨by decide, by decide⟩

/-! ## String-level lemmas -/

theorem stripWs_data (s : String) :
    (stripWs s).data = s.data.filter fun c => !(isJsWhitespace c) := rfl

theorem strLower_data (s : String) : (strLower s).data = s.data.map lowerChar := rfl

theorem stripWs_stripWs (s : String) : stripWs (stripWs s) = stripWs s := by
  unfold stripWs
  congr 1
  rw [List.filter_filter]
  congr 1
  funext c
  rw [Bool.and_self]

theorem strLower_strLower (s : String) : strLower (strLower s) = strLower s := by
  unfold strLower
  congr 1
  rw [List.map_map]
  congr 1
  funext c
  exact lowerChar_idem c

theorem filter_ws_map_lower (l : List Char) :
    (l.map lowerChar).filter (fun c => !(isJsWhitespace c)) =
      (l.filter fun c => !(isJsWhitespace c)).map lowerChar := by
  rw [List.filter_map]
  congr 1
  congr 1
  funext c
  simp only [Function.comp]
  rw [isJsWhitespace_lowerChar]

theorem stripWs_strLower (s : String) :
    stripWs (strLower s) = strLower (stripWs s) := by
  unfold stripWs strLower
  exact congrArg String.mk (filter_ws_map_lower s.data)

/-- The composite `replace(/\s/g, '').toLowerCase()` is idempotent. -/
theorem nl_idem (s : String) :
    strLower (stripWs (strLower (stripWs s))) = strLower (stripWs s) := by
  rw [stripWs_strLower, strLower_strLower, stripWs_stripWs]

theorem stripNonDigits_idem (s : String) :
    stripNonDigits (stripNonDigits s) = stripNonDigits s := by
  unfold stripNonDigits
  congr 1
  rw [List.filter_filter]
  congr 1
  funext c
  rw [Bool.and_self]

/-- No ASCII capital letter and no whitespace character anywhere. -/
def cleanStr (s : String) : Bool :=
  s.data.all fun c => !(isAsciiUpper c) && !(isJsWhitespace c)

theorem cleanStr_nl (s : String) : cleanStr (strLower (stripWs s)) = true := by
  unfold cleanStr
  rw [List.all_eq_true]
  intro c hc
  rw [strLower_data] at hc
  rcases List.mem_map.mp hc with ⟨a, ha, rfl⟩
  rw [stripWs_data] at ha
  have hws := (List.mem_filter.mp ha).2
  rw [isAsciiUpper_lowerChar, isJsWhitespace_lowerChar]
  simp only [Bool.not_eq_true'] at hws ⊢
  rw [hws]
  simp

theorem cleanStr_stripNonDigits (s : String) :
    cleanStr (stripNonDigits s) = true := by
  unfold cleanStr
  rw [List.all_eq_true]
  intro c hc
  unfold stripNonDigits at hc
  have hd := (List.mem_filter.mp hc).2
  rcases digit_clean c hd with ⟨h1, h2⟩
  rw [h1, h2]
  rfl

/-! ## Table lemmas -/

theorem tableLookup_mem (tbl : List (String × String)) (k v : String)
    (h : tableLookup tbl k = some v) : (k, v) ∈ tbl := by
  induction tbl with
  | nil => simp [tableLookup] at h
  | cons p rest ih =>
    cases p with
    | mk a b =>
      unfold tableLookup at h
      by_cases hk : k = a
      · rw [if_pos hk] at h
        injection h with hv
        rw [hk, hv]
        exact List.mem_cons_self _ _
      · rw [if_neg hk] at h
        exact List.mem_cons_of_mem _ (ih h)

/-- A code table is well formed when every value is a nonempty, already
canonical (lowercase, whitespace-free) string that is not itself a key. -/
def goodTable (tbl : List (String × String)) : Bool :=
  tbl.all fun p =>
    !(decide (p.2 = "")) && decide (strLower (stripWs p.2) = p.2) &&
      (tableLookup tbl p.2).isNone && cleanStr p.2

theorem US_STATE_CODES_good : goodTable US_STATE_CODES = true := by decide

theorem COUNTRY_CODES_good : goodTable COUNTRY_CODES = true := by decide

/-! ## Idempotence of the field normalizers -/

theorem normWsLower_some (s : String) (hs : s ≠ "") :
    normWsLower (some s) = some (strLower (stripWs s)) := by
  simp only [normWsLower]
  rw [if_neg hs]

theorem normWsLower_idem (o : Option String) :
    normWsLower (normWsLower o) = normWsLower o := by
  cases o with
  | none => rfl
  | some s =>
    by_cases hs : s = ""
    · rw [hs]
      rfl
    · rw [normWsLower_some s hs]
      by_cases h2 : strLower (stripWs s) = ""
      · simp only [normWsLower]
        rw [if_pos h2]
      · rw [normWsLower_some _ h2, nl_idem]

theorem normPhone_idem (o : Option String) :
    normPhone (normPhone o) = normPhone o := by
  cases o with
  | none => rfl
  | some s =>
    by_cases hs : s = ""
    · rw [hs]
      rfl
    · by_cases hh : isHashedInformation s = true
      · have h1 : normPhone (some s) = some s := by
          simp only [normPhone]
          rw [if_neg hs, if_pos hh]
        rw [h1, h1]
      · have h1 : normPhone (some s) = some (stripNonDigits s) := by
          simp only [normPhone]
          rw [if_neg hs, if_neg hh]
        rw [h1]
        by_cases h2 : stripNonDigits s = ""
        · simp only [normPhone]
          rw [if_pos h2]
        · by_cases h3 : isHashedInformation (stripNonDigits s) = true
          · simp only [normPhone]
            rw [if_neg h2, if_pos h3]
          · simp only [normPhone]
            rw [if_neg h2, if_neg h3, stripNonDigits_idem]

theorem normGender_some (s : String) (hs : s ≠ "") :
    normGender (some s) =
      (if strLower (stripWs s) = "male" then some "m"
       else if strLower (stripWs s) = "female" then some "f"
       else some (strLower (stripWs s))) := by
  simp only [normGender]
  rw [if_neg hs]

theorem normGender_idem (o : Option String) :
    normGender (normGender o) = normGender o := by
  cases o with
  | none => rfl
  | some s =>
    by_cases hs : s = ""
    · rw [hs]
      rfl
    · rw [normGender_some s hs]
      by_cases hm : strLower (stripWs s) = "male"
      · rw [if_pos hm]
        rfl
      · rw [if_neg hm]
        by_cases hf : strLower (stripWs s) = "female"
        · rw [if_pos hf]
          rfl
        · rw [if_neg hf]
          by_cases h2 : strLower (stripWs s) = ""
          · simp only [normGender]
            rw [if_pos h2]
          · rw [normGender_some _ h2, nl_idem, if_neg hm, if_neg hf]

theorem goodTable_spec (tbl : List (String × String)) (hg : goodTable tbl = true)
    (k v : String) (h : tableLookup tbl k = some v) :
    v ≠ "" ∧ strLower (stripWs v) = v ∧ tableLookup tbl v = none ∧ cleanStr v = true := by
  have hp := List.all_eq_true.mp hg (k, v) (tableLookup_mem tbl k v h)
  simp only [Bool.and_eq_true, Bool.not_eq_true', decide_eq_false_iff_not,
    decide_eq_true_eq, Option.isNone_iff_eq_none] at hp
  exact ⟨hp.1.1.1, hp.1.1.2, hp.1.2, hp.2⟩

theorem normViaTable_some (tbl : List (String × String)) (s : String) (hs : s ≠ "") :
    normViaTable tbl (some s) =
      (match tableLookup tbl (strLower (stripWs s)) with
       | some code => some code
       | none => some (strLower (stripWs s))) := by
  simp only [normViaTable]
  rw [if_neg hs]

theorem normViaTable_idem (tbl : List (String × String)) (hg : goodTable tbl = true)
    (o : Option String) : normViaTable tbl (normViaTable tbl o) = normViaTable tbl o := by
  cases o with
  | none => rfl
  | some s =>
    by_cases hs : s = ""
    · rw [hs]
      rfl
    · rw [normViaTable_some tbl s hs]
      rcases hL : tableLookup tbl (strLower (stripWs s)) with _ | code
      · show normViaTable tbl (some (strLower (stripWs s))) = some (strLower (stripWs s))
        by_cases h2 : strLower (stripWs s) = ""
        · simp only [normViaTable]
          rw [if_pos h2]
        · rw [normViaTable_some tbl _ h2, nl_idem, hL]
      · show normViaTable tbl (some code) = some code
        rcases goodTable_spec tbl hg _ code hL with ⟨hne, hfix, hnone, _⟩
        rw [normViaTable_some tbl code hne, hfix, hnone]

theorem normExternalId_idem (o : Option SValue) :
    normExternalId (normExternalId o) = normExternalId o := by
  cases o with
  | none => rfl
  | some v =>
    cases v with
    | str s =>
      by_cases hs : s.length = 0
      · have h1 : normExternalId (some (SValue.str s)) = some (SValue.str s) := by
          simp only [normExternalId, lodashIsEmpty]
          rw [if_pos (by simpa using hs)]
        rw [h1, h1]
      · have h1 : normExternalId (some (SValue.str s)) =
            some (SValue.arr [strLower (stripWs s)]) := by
          simp only [normExternalId, lodashIsEmpty]
          rw [if_neg (by simpa using hs)]
        rw [h1]
        simp only [normExternalId, lodashIsEmpty]
        rw [if_neg (by simp)]
        simp [nl_idem]
    | arr l =>
      by_cases hl : l.length = 0
      · have h1 : normExternalId (some (SValue.arr l)) = some (SValue.arr l) := by
          simp only [normExternalId, lodashIsEmpty]
          rw [if_pos (by simpa using hl)]
        rw [h1, h1]
      · have h1 : normExternalId (some (SValue.arr l)) =
            some (SValue.arr (l.map fun el => strLower (stripWs el))) := by
          simp only [normExternalId, lodashIsEmpty]
          rw [if_neg (by simpa using hl)]
        rw [h1]
        simp only [normExternalId, lodashIsEmpty]
        rw [if_neg (by simpa using hl)]
        simp [List.map_map, Function.comp, nl_idem]

/-- Field-by-field idempotence assembled over the whole record. -/
theorem normalizeUD_idem (p : UserData) :
    normalize_user_data (normalize_user_data p) = normalize_user_data p := by
  simp only [normalize_user_data]
  congr 1
  simp [normWsLower_idem, normPhone_idem, normGender_idem,
    normViaTable_idem US_STATE_CODES US_STATE_CODES_good,
    normViaTable_idem COUNTRY_CODES COUNTRY_CODES_good,
    normExternalId_idem]

theorem string_length_zero_iff (s : String) : s.length = 0 ↔ s = "" := by
  constructor
  · intro h
    have hd : s.data = [] := List.length_eq_zero.mp h
    cases s
    simp_all
  · rintro rfl
    rfl

/-! ## Claim theorems -/

/-- Claim C1: `normalize_user_data` is idempotent — applying it twice leaves
the record equal to applying it once — and consequently `hash_user_data`,
which invokes normalization first, applied twice to the same record yields
identical output both times (the second call sees the already-normalized
record and produces the same digest map). -/
theorem normalize_user_data_idempotent (p : UserData) :
    normalize_user_data (normalize_user_data p) = normalize_user_data p ∧
      hash_user_data (normalize_user_data p) = hash_user_data p := by
  refine ⟨normalizeUD_idem p, ?_⟩
  simp only [hash_user_data, normalizeUD_idem]

/-- Evaluation of `hash` on a present, non-empty string. -/
theorem hash_str (s : String) (hs : s ≠ "") :
    hash (some (SValue.str s)) = some (SValue.str (processHashingV2 s)) := by
  show (if s.length = 0 then none else some (SValue.str (processHashingV2 s))) =
    some (SValue.str (processHashingV2 s))
  rw [if_neg (fun h0 => hs ((string_length_zero_iff s).mp h0))]

/-- Evaluation of `hash` on a present, non-empty array. -/
theorem hash_arr (l : List String) (hl : l ≠ []) :
    hash (some (SValue.arr l)) = some (SValue.arr (l.map processHashingV2)) := by
  show (if l.length = 0 then none else some (SValue.arr (l.map processHashingV2))) =
    some (SValue.arr (l.map processHashingV2))
  rw [if_neg (by simpa using hl)]

/-- Claim C2: for a record whose phone is non-empty, if the phone is not
detected as pre-hashed, normalization replaces it with the string of its digit
characters (all non-digits removed); if it matches the 64-hex-character
pattern, normalization leaves it unchanged (no digit stripping, no case
change) and `hash_user_data` emits it under `ph` without re-hashing it. -/
theorem phone_strip_or_passthrough (p : UserData) (s : String)
    (hp : p.user_data.phone = some s) (hs : s ≠ "") :
    (isHashedInformation s = false →
      (normalize_user_data p).user_data.phone = some (stripNonDigits s)) ∧
    (isHashedInformation s = true →
      (normalize_user_data p).user_data.phone = some s ∧
      (hash_user_data p).ph = some (SValue.str s)) := by
  have hphone : (normalize_user_data p).user_data.phone = normPhone (some s) := by
    simp [normalize_user_data, hp]
  constructor
  · intro hnh
    rw [hphone]
    simp only [normPhone]
    rw [if_neg hs, if_neg (by simp [hnh])]
  · intro hh
    have hfix : normPhone (some s) = some s := by
      simp only [normPhone]
      rw [if_neg hs, if_pos hh]
    refine ⟨by rw [hphone, hfix], ?_⟩
    simp only [hash_user_data]
    rw [hphone, hfix, Option.map_some', hash_str s hs]
    simp only [processHashingV2]
    rw [if_pos hh]

/-- The raw phone record of the C2 digit-stripping example. -/
def phoneRecRaw : UserData :=
  { user_data := { phone := some "+1 (555) 123-4567" } }

/-- A 64-hex-character (pre-hashed) phone value. -/
def prehashedPhone : String :=
  "ea3d01f99e303d2338cfb4e71f182441eb57c9a3cb129c40bcae9f5d641a7375"

/-- A record whose phone is a 64-hex-character (pre-hashed) value. -/
def phoneRecHashed : UserData :=
  { user_data := { phone := some prehashedPhone } }

/-- Witness for C2 at concrete inputs: `"+1 (555) 123-4567"` becomes
`"15551234567"`, and a 64-hex phone is left alone and not re-hashed. -/
theorem phone_strip_or_passthrough_witness :
    (normalize_user_data phoneRecRaw).user_data.phone = some "15551234567" ∧
    (normalize_user_data phoneRecHashed).user_data.phone = some prehashedPhone ∧
    (hash_user_data phoneRecHashed).ph = some (SValue.str prehashedPhone) := by
  refine ⟨?_, ?_, ?_⟩
  · have h := (phone_strip_or_passthrough phoneRecRaw "+1 (555) 123-4567" rfl
      (by decide)).1 (by decide)
    rw [h]
    decide
  · exact ((phone_strip_or_passthrough phoneRecHashed prehashedPhone rfl
      (by decide)).2 (by decide)).1
  · exact ((phone_strip_or_passthrough phoneRecHashed prehashedPhone rfl
      (by decide)).2 (by decide)).2

/-- Claim C3: a PII field that is absent (`undefined`), an empty string, or —
for `externalId` — an empty array, leads to `undefined` under its output key
in the result of `hash_user_data`: never an empty-string digest and never the
digest of the empty string. -/
theorem empty_fields_omitted (p : UserData) :
    (p.user_data.email = none ∨ p.user_data.email = some "" →
      (hash_user_data p).em = none) ∧
    (p.user_data.phone = none ∨ p.user_data.phone = some "" →
      (hash_user_data p).ph = none) ∧
    (p.user_data.gender = none ∨ p.user_data.gender = some "" →
      (hash_user_data p).ge = none) ∧
    (p.user_data.dateOfBirth = none ∨ p.user_data.dateOfBirth = some "" →
      (hash_user_data p).db = none) ∧
    (p.user_data.lastName = none ∨ p.user_data.lastName = some "" →
      (hash_user_data p).ln = none) ∧
    (p.user_data.firstName = none ∨ p.user_data.firstName = some "" →
      (hash_user_data p).fn = none) ∧
    (p.user_data.city = none ∨ p.user_data.city = some "" →
      (hash_user_data p).ct = none) ∧
    (p.user_data.state = none ∨ p.user_data.state = some "" →
      (hash_user_data p).st = none) ∧
    (p.user_data.zip = none ∨ p.user_data.zip = some "" →
      (hash_user_data p).zp = none) ∧
    (p.user_data.country = none ∨ p.user_data.country = some "" →
      (hash_user_data p).country = none) ∧
    (p.user_data.externalId = none ∨ p.user_data.externalId = some (SValue.str "") ∨
        p.user_data.externalId = some (SValue.arr []) →
      (hash_user_data p).external_id = none) := by
  refine ⟨?_, ?_, ?_, ?_, ?_, ?_, ?_, ?_, ?_, ?_, ?_⟩ <;> intro h <;>
    rcases h with h | h
  all_goals try rcases h with h | h
  all_goals simp only [hash_user_data, normalize_user_data]
  all_goals rw [h]
  all_goals rfl

/-- A record with an absent email, an empty-string phone and an empty
externalId array. -/
def emptyishRec : UserData :=
  { user_data := { phone := some "", externalId := some (SValue.arr []) } }

/-- Witness for C3: the `emptyishRec` record produces `undefined` under `em`,
`ph` and `external_id`. -/
theorem empty_fields_omitted_witness :
    (hash_user_data emptyishRec).em = none ∧
    (hash_user_data emptyishRec).ph = none ∧
    (hash_user_data emptyishRec).external_id = none := by
  refine ⟨?_, ?_, ?_⟩
  · exact (empty_fields_omitted emptyishRec).1 (Or.inl rfl)
  · exact (empty_fields_omitted emptyishRec).2.1 (Or.inr rfl)
  · exact (empty_fields_omitted emptyishRec).2.2.2.2.2.2.2.2.2.2
      (Or.inr (Or.inr rfl))

/-- Claim C4: for a record with a non-empty email, firstName, lastName, city
or zip, normalization replaces the value with the string obtained by removing
every whitespace character anywhere in the string (not only leading or
trailing) and lowercasing the remainder. -/
theorem ws_lower_fields (p : UserData) (s : String) (hs : s ≠ "") :
    (p.user_data.email = some s → (normalize_user_data p).user_data.email =
      some (String.mk ((s.data.filter fun c => !(isJsWhitespace c)).map lowerChar))) ∧
    (p.user_data.firstName = some s → (normalize_user_data p).user_data.firstName =
      some (String.mk ((s.data.filter fun c => !(isJsWhitespace c)).map lowerChar))) ∧
    (p.user_data.lastName = some s → (normalize_user_data p).user_data.lastName =
      some (String.mk ((s.data.filter fun c => !(isJsWhitespace c)).map lowerChar))) ∧
    (p.user_data.city = some s → (normalize_user_data p).user_data.city =
      some (String.mk ((s.data.filter fun c => !(isJsWhitespace c)).map lowerChar))) ∧
    (p.user_data.zip = some s → (normalize_user_data p).user_data.zip =
      some (String.mk ((s.data.filter fun c => !(isJsWhitespace c)).map lowerChar))) := by
  have key : normWsLower (some s) =
      some (String.mk ((s.data.filter fun c => !(isJsWhitespace c)).map lowerChar)) :=
    normWsLower_some s hs
  refine ⟨?_, ?_, ?_, ?_, ?_⟩ <;> intro h <;>
    simp only [normalize_user_data] <;> rw [h, key]

/-- The email record of the C4 example. -/
def emailRec : UserData :=
  { user_data := { email := some " Test@Example.COM " } }

/-- Witness for C4: `" Test@Example.COM "` normalizes to
`"test@example.com"`. -/
theorem ws_lower_fields_witness :
    (normalize_user_data emailRec).user_data.email = some "test@example.com" := by
  have h := (ws_lower_fields emailRec " Test@Example.COM " (by decide)).1 rfl
  rw [h]
  decide

/-- Claim C5: for a record with a non-empty gender, normalization first
removes all whitespace and lowercases, then maps `"male"` to `"m"` and
`"female"` to `"f"`, leaving any other resulting value unchanged. -/
theorem gender_mapping (p : UserData) (s : String)
    (hg : p.user_data.gender = some s) (hs : s ≠ "") :
    (normalize_user_data p).user_data.gender =
      (if strLower (stripWs s) = "male" then some "m"
       else if strLower (stripWs s) = "female" then some "f"
       else some (strLower (stripWs s))) := by
  simp only [normalize_user_data]
  rw [hg, normGender_some s hs]

/-- Witness for C5: `" Male "` yields `"m"` and `"Female"` yields `"f"`. -/
theorem gender_mapping_witness :
    (normalize_user_data { user_data := { gender := some " Male " } }).user_data.gender =
      some "m" ∧
    (normalize_user_data { user_data := { gender := some "Female" } }).user_data.gender =
      some "f" := by
  constructor
  · rw [gender_mapping { user_data := { gender := some " Male " } } " Male " rfl
      (by decide)]
    decide
  · rw [gender_mapping { user_data := { gender := some "Female" } } "Female" rfl
      (by decide)]
    decide

/-- Claim C6: for a record with a non-empty state (resp. country),
normalization strips whitespace and lowercases, then rewrites the value to
the canonical two-letter code when the region-code (resp. country-code) table
recognizes the lowercase string, and otherwise keeps the lowercase text
unchanged — never an error. -/
theorem state_country_mapping (p : UserData) (s : String) (hs : s ≠ "") :
    (p.user_data.state = some s → (normalize_user_data p).user_data.state =
      (match tableLookup US_STATE_CODES (strLower (stripWs s)) with
       | some code => some code
       | none => some (strLower (stripWs s)))) ∧
    (p.user_data.country = some s → (normalize_user_data p).user_data.country =
      (match tableLookup COUNTRY_CODES (strLower (stripWs s)) with
       | some code => some code
       | none => some (strLower (stripWs s)))) := by
  constructor <;> intro h <;> simp only [normalize_user_data] <;>
    rw [h, normViaTable_some _ s hs]

/-- Witness for C6: state `"California"` maps to `"ca"`, and the unrecognized
state `"Zzyzx"` stays `"zzyzx"`. -/
theorem state_country_mapping_witness :
    (normalize_user_data { user_data := { state := some "California" } }).user_data.state =
      some "ca" ∧
    (normalize_user_data { user_data := { state := some "Zzyzx" } }).user_data.state =
      some "zzyzx" := by
  constructor
  · rw [(state_country_mapping { user_data := { state := some "California" } }
      "California" (by decide)).1 rfl]
    decide
  · rw [(state_country_mapping { user_data := { state := some "Zzyzx" } }
      "Zzyzx" (by decide)).1 rfl]
    decide

/-- Claim C7: for a record with a non-empty externalId, a bare string is
coerced into a one-element array, every element is whitespace-stripped and
lowercased, and `hash_user_data` outputs under `external_id` an ordered
sequence of digests of the same length whose i-th element is the digest of
the i-th normalized input element. -/
theorem externalId_sequence (p : UserData) :
    (∀ s : String, p.user_data.externalId = some (SValue.str s) → s ≠ "" →
      (normalize_user_data p).user_data.externalId =
        some (SValue.arr [strLower (stripWs s)]) ∧
      (hash_user_data p).external_id =
        some (SValue.arr [processHashingV2 (strLower (stripWs s))])) ∧
    (∀ l : List String, p.user_data.externalId = some (SValue.arr l) → l ≠ [] →
      (normalize_user_data p).user_data.externalId =
        some (SValue.arr (l.map fun el => strLower (stripWs el))) ∧
      (hash_user_data p).external_id =
        some (SValue.arr (l.map fun el => processHashingV2 (strLower (stripWs el))))) := by
  constructor
  · intro s h hs
    have hn : (normalize_user_data p).user_data.externalId =
        some (SValue.arr [strLower (stripWs s)]) := by
      simp only [normalize_user_data]
      rw [h]
      simp only [normExternalId, lodashIsEmpty]
      rw [if_neg (by simp [string_length_zero_iff, hs])]
    refine ⟨hn, ?_⟩
    simp only [hash_user_data]
    rw [hn, hash_arr _ (by simp)]
    rfl
  · intro l h hl
    have hn : (normalize_user_data p).user_data.externalId =
        some (SValue.arr (l.map fun el => strLower (stripWs el))) := by
      simp only [normalize_user_data]
      rw [h]
      simp only [normExternalId, lodashIsEmpty]
      rw [if_neg (by simpa using hl)]
    refine ⟨hn, ?_⟩
    simp only [hash_user_data]
    rw [hn, hash_arr _ (by simpa using hl)]
    rw [List.map_map]
    rfl

/-- Witness for C7: the single string `"User123"` yields the one-element
normalized sequence `["user123"]` and a one-element sequence of one digest. -/
theorem externalId_sequence_witness :
    (normalize_user_data { user_data := { externalId := some (SValue.str "User123") } }).user_data.externalId =
      some (SValue.arr ["user123"]) ∧
    (hash_user_data { user_data := { externalId := some (SValue.str "User123") } }).external_id =
      some (SValue.arr [processHashingV2 "user123"]) := by
  have h := (externalId_sequence
    { user_data := { externalId := some (SValue.str "User123") } }).1 "User123" rfl
    (by decide)
  constructor
  · rw [h.1]
    decide
  · rw [h.2]
    have : strLower (stripWs "User123") = "user123" := by decide
    rw [this]

/-- Claim C9: `hash_user_data` copies every non-PII field through to the
output unhashed and unmodified, under its platform-specific output key name
(a pure renaming), and `normalize_user_data` applies no transformation to
`dateOfBirth`. -/
theorem passthrough_fields (p : UserData) :
    (hash_user_data p).client_ip_address = p.user_data.client_ip_address ∧
    (hash_user_data p).client_user_agent = p.user_data.client_user_agent ∧
    (hash_user_data p).fbc = p.user_data.fbc ∧
    (hash_user_data p).fbp = p.user_data.fbp ∧
    (hash_user_data p).subscription_id = p.user_data.subscriptionID ∧
    (hash_user_data p).lead_id = p.user_data.leadID ∧
    (hash_user_data p).anon_id = p.user_data.anonId ∧
    (hash_user_data p).madid = p.user_data.madId ∧
    (hash_user_data p).fb_login_id = p.user_data.fbLoginID ∧
    (hash_user_data p).partner_id = p.user_data.partner_id ∧
    (hash_user_data p).partner_name = p.user_data.partner_name ∧
    (normalize_user_data p).user_data.dateOfBirth = p.user_data.dateOfBirth :=
  ⟨rfl, rfl, rfl, rfl, rfl, rfl, rfl, rfl, rfl, rfl, rfl, rfl⟩

theorem cleanStr_empty : cleanStr "" = true := rfl

theorem normWsLower_clean (o : Option String) (s : String)
    (h : normWsLower o = some s) : cleanStr s = true := by
  cases o with
  | none => simp [normWsLower] at h
  | some s0 =>
    by_cases h0 : s0 = ""
    · rw [h0] at h
      simp only [normWsLower, if_pos rfl] at h
      injection h with h
      rw [← h]
      exact cleanStr_empty
    · rw [normWsLower_some s0 h0] at h
      injection h with h
      rw [← h]
      exact cleanStr_nl s0

theorem normGender_clean (o : Option String) (s : String)
    (h : normGender o = some s) : cleanStr s = true := by
  cases o with
  | none => simp [normGender] at h
  | some s0 =>
    by_cases h0 : s0 = ""
    · rw [h0] at h
      simp only [normGender, if_pos rfl] at h
      injection h with h
      rw [← h]
      exact cleanStr_empty
    · rw [normGender_some s0 h0] at h
      by_cases hm : strLower (stripWs s0) = "male"
      · rw [if_pos hm] at h
        injection h with h
        rw [← h]
        decide
      · rw [if_neg hm] at h
        by_cases hf : strLower (stripWs s0) = "female"
        · rw [if_pos hf] at h
          injection h with h
          rw [← h]
          decide
        · rw [if_neg hf] at h
          injection h with h
          rw [← h]
          exact cleanStr_nl s0

theorem normViaTable_clean (tbl : List (String × String)) (hg : goodTable tbl = true)
    (o : Option String) (s : String) (h : normViaTable tbl o = some s) :
    cleanStr s = true := by
  cases o with
  | none => simp [normViaTable] at h
  | some s0 =>
    by_cases h0 : s0 = ""
    · rw [h0] at h
      simp only [normViaTable, if_pos rfl] at h
      injection h with h
      rw [← h]
      exact cleanStr_empty
    · rw [normViaTable_some tbl s0 h0] at h
      rcases hL : tableLookup tbl (strLower (stripWs s0)) with _ | code
      · rw [hL] at h
        injection h with h
        rw [← h]
        exact cleanStr_nl s0
      · rw [hL] at h
        injection h with h
        rw [← h]
        exact (goodTable_spec tbl hg _ code hL).2.2.2

/-- Claim C8: after `normalize_user_data`, every processed normalizable field
(email, gender, firstName, lastName, city, state, zip, country, every
externalId element, and a phone that was not detected as pre-hashed) contains
no capital letter and no whitespace character; a phone detected as already
hashed is left untouched. -/
theorem normalized_fields_clean (p : UserData) :
    (∀ s, (normalize_user_data p).user_data.email = some s → cleanStr s = true) ∧
    (∀ s, (normalize_user_data p).user_data.gender = some s → cleanStr s = true) ∧
    (∀ s, (normalize_user_data p).user_data.firstName = some s → cleanStr s = true) ∧
    (∀ s, (normalize_user_data p).user_data.lastName = some s → cleanStr s = true) ∧
    (∀ s, (normalize_user_data p).user_data.city = some s → cleanStr s = true) ∧
    (∀ s, (normalize_user_data p).user_data.state = some s → cleanStr s = true) ∧
    (∀ s, (normalize_user_data p).user_data.zip = some s → cleanStr s = true) ∧
    (∀ s, (normalize_user_data p).user_data.country = some s → cleanStr s = true) ∧
    (∀ l, (normalize_user_data p).user_data.externalId = some (SValue.arr l) →
      ∀ el ∈ l, cleanStr el = true) ∧
    (∀ s, p.user_data.phone = some s → isHashedInformation s = false →
      ∀ t, (normalize_user_data p).user_data.phone = some t → cleanStr t = true) ∧
    (∀ s, p.user_data.phone = some s → isHashedInformation s = true →
      (normalize_user_data p).user_data.phone = some s) := by
  refine ⟨?_, ?_, ?_, ?_, ?_, ?_, ?_, ?_, ?_, ?_, ?_⟩
  · intro s h
    exact normWsLower_clean _ s (by simpa [normalize_user_data] using h)
  · intro s h
    exact normGender_clean _ s (by simpa [normalize_user_data] using h)
  · intro s h
    exact normWsLower_clean _ s (by simpa [normalize_user_data] using h)
  · intro s h
    exact normWsLower_clean _ s (by simpa [normalize_user_data] using h)
  · intro s h
    exact normWsLower_clean _ s (by simpa [normalize_user_data] using h)
  · intro s h
    exact normViaTable_clean US_STATE_CODES US_STATE_CODES_good _ s
      (by simpa [normalize_user_data] using h)
  · intro s h
    exact normWsLower_clean _ s (by simpa [normalize_user_data] using h)
  · intro s h
    exact normViaTable_clean COUNTRY_CODES COUNTRY_CODES_good _ s
      (by simpa [normalize_user_data] using h)
  · intro l h el hel
    have h' : normExternalId p.user_data.externalId = some (SValue.arr l) := by
      simpa [normalize_user_data] using h
    rcases ho : p.user_data.externalId with _ | v
    · rw [ho] at h'
      simp [normExternalId, lodashIsEmpty] at h'
    · rcases v with s0 | l0
      · rw [ho] at h'
        by_cases h0 : s0.length = 0
        · simp only [normExternalId, lodashIsEmpty] at h'
          rw [if_pos (by simpa using h0)] at h'
          simp at h'
        · simp only [normExternalId, lodashIsEmpty] at h'
          rw [if_neg (by simpa using h0)] at h'
          injection h' with h'
          injection h' with h'
          rw [← h'] at hel
          rcases List.mem_singleton.mp hel with rfl
          exact cleanStr_nl s0
      · rw [ho] at h'
        by_cases h0 : l0.length = 0
        · simp only [normExternalId, lodashIsEmpty] at h'
          rw [if_pos (by simpa using h0)] at h'
          injection h' with h'
          injection h' with h'
          rw [← h'] at hel
          rw [List.length_eq_zero.mp h0] at hel
          simp at hel
        · simp only [normExternalId, lodashIsEmpty] at h'
          rw [if_neg (by simpa using h0)] at h'
          injection h' with h'
          injection h' with h'
          rw [← h'] at hel
          rcases List.mem_map.mp hel with ⟨a, _, rfl⟩
          exact cleanStr_nl a
  · intro s hp hnh t ht
    have h' : normPhone (some s) = some t := by
      rw [← hp]
      simpa [normalize_user_data, hp] using ht
    by_cases h0 : s = ""
    · rw [h0] at h'
      simp only [normPhone, if_pos rfl] at h'
      injection h' with h'
      rw [← h']
      exact cleanStr_empty
    · simp only [normPhone] at h'
      rw [if_neg h0, if_neg (by simp [hnh])] at h'
      injection h' with h'
      rw [← h']
      exact cleanStr_stripNonDigits s
  · intro s hp hh
    simp only [normalize_user_data]
    rw [hp]
    simp only [normPhone]
    by_cases h0 : s = ""
    · rw [if_pos h0]
    · rw [if_neg h0, if_pos hh]

/-- A record whose phone is a 64-hex pre-hashed value, for the C8 witness. -/
def hashedPhoneRec : UserData :=
  { user_data := { phone := some "0123456789abcdef0123456789abcdef0123456789abcdef0123456789abcdef" } }

/-- Witness for C8 at concrete records: after normalization the email of the
`" Test@Example.COM "` record is clean, and a pre-hashed phone is untouched. -/
theorem normalized_fields_clean_witness :
    (cleanStr "test@example.com" = true) ∧
    (normalize_user_data hashedPhoneRec).user_data.phone =
      some "0123456789abcdef0123456789abcdef0123456789abcdef0123456789abcdef" := by
  constructor
  · exact (normalized_fields_clean
      { user_data := { email := some " Test@Example.COM " } }).1
      "test@example.com" (by decide)
  · exact (normalized_fields_clean hashedPhoneRec).2.2.2.2.2.2.2.2.2.2
      "0123456789abcdef0123456789abcdef0123456789abcdef0123456789abcdef"
      (by rfl) (by decide)

theorem hasHexRun64_iff (l : List Char) :
    hasHexRun64 l = true ↔
      ∃ pre mid post : List Char, l = pre ++ mid ++ post ∧
        mid.length = 64 ∧ mid.all isHexChar = true := by
  induction l with
  | nil =>
    constructor
    · intro h
      simp [hasHexRun64] at h
    · rintro ⟨pre, mid, post, hEq, hLen, _⟩
      have hc : ([] : List Char).length = (pre ++ mid ++ post).length := by rw [hEq]
      simp [hLen] at hc
      omega
  | cons c rest ih =>
    constructor
    · intro h
      simp only [hasHexRun64, Bool.or_eq_true, Bool.and_eq_true] at h
      rcases h with ⟨hlen, hall⟩ | h
      · refine ⟨[], (c :: rest).take 64, (c :: rest).drop 64, ?_, ?_, hall⟩
        · rw [List.nil_append, List.take_append_drop]
        · rw [List.length_take]
          simp only [decide_eq_true_eq] at hlen
          omega
      · rcases ih.mp h with ⟨pre, mid, post, hEq, hLen, hAll⟩
        exact ⟨c :: pre, mid, post, by simp [hEq], hLen, hAll⟩
    · rintro ⟨pre, mid, post, hEq, hLen, hAll⟩
      cases pre with
      | nil =>
        rw [List.nil_append] at hEq
        simp only [hasHexRun64, Bool.or_eq_true, Bool.and_eq_true]
        left
        constructor
        · rw [hEq]
          simp [List.length_append, hLen]
        · rw [hEq, ← hLen, List.take_left]
          exact hAll
      | cons a pre' =>
        simp only [List.cons_append] at hEq
        injection hEq with h1 h2
        simp only [hasHexRun64, Bool.or_eq_true]
        right
        exact ih.mpr ⟨pre', mid, post, h2, hLen, hAll⟩

/-- Claim C10: `isHashedInformation` classifies a string as pre-hashed
exactly when its characters contain, anywhere, a run of 64 consecutive
hexadecimal characters (case-insensitive): the regex is unanchored, so the
whole string need not be exactly 64 hex characters, and any string embedding
such a run (longer hex strings, free text around a run) is treated as
pre-hashed. -/
theorem isHashedInformation_spec (s : String) :
    isHashedInformation s = true ↔
      ∃ pre mid post : List Char, s.data = pre ++ mid ++ post ∧
        mid.length = 64 ∧ mid.all isHexChar = true :=
  hasHexRun64_iff s.data

/-- Witness for C10: the 65-character hex string `aa…a` and free text
embedding a 64-hex run are both classified as pre-hashed. -/
theorem isHashedInformation_spec_witness :
    isHashedInformation (String.mk (List.replicate 65 'a')) = true ∧
    isHashedInformation (String.mk ('x' :: List.replicate 64 '0' ++ ['y'])) = true := by
  constructor
  · exact (isHashedInformation_spec (String.mk (List.replicate 65 'a'))).mpr
      ⟨[], List.replicate 64 'a', ['a'], by decide, by decide, by decide⟩
  · exact (isHashedInformation_spec (String.mk ('x' :: List.replicate 64 '0' ++ ['y']))).mpr
      ⟨['x'], List.replicate 64 '0', ['y'], by decide, by decide, by decide⟩

/-- Cross-check of the SHA-256 model: the digest of `"test@test.com"` equals
the value recorded in the repository's own destination tests. -/
theorem sha256Hex_matches_repo_tests : sha256Hex "test@test.com" =
    "f660ab912ec121d1b1e928a0bb4bc61b15f5ad44d5efdc4e1c92a25e99b8e44a" := by
  decide
